import Mathlib

/-!
Verification of drone-firebase: a shallow embedding of `main.go`.

Go strings are modelled by Lean strings (sequences of Unicode scalar values), that is,
the valid UTF-8 Go strings; on those a byte-wise prefix test against an ASCII prefix and
a character-wise one agree.  A nil Go slice is the empty list and `append` adds at the end.
-/

namespace DroneFirebase

/-! ## Data model (`main.go`, lines 26-39) -/

/-- Firebase defines the types of data necessary for deployment. -/
structure Firebase where
  Token : String
  ProjectID : String
  Message : String
  Targets : String
  DryRun : Bool
  Debug : Bool
  deriving DecidableEq, Repr

/-- Workspace defines the types of data required from the workspace. -/
structure Workspace where
  Path : String
  deriving DecidableEq, Repr

/-- The standard streams of the process, as values of `os.Stdout` and `os.Stderr`. -/
inductive File where
  | Stdout
  | Stderr
  deriving DecidableEq, Repr

/-- The fields of `exec.Cmd` that the program sets or reads; an unset stream is `none`.
The field `Path`, which `exec.Command` resolves by looking the name up in the directories
of `PATH`, is not represented: the name stays in `Args` and its resolution belongs to the
operating system that runs the command. -/
structure Cmd where
  Args : List String
  Env : List String
  Stdout : Option File
  Stderr : Option File
  deriving DecidableEq, Repr

/-! ## Library functions used by the builders -/

/-- Go `strings.HasPrefix(s, p)`: `len(s) >= len(p) && s[:len(p)] == p`. -/
def HasPrefix (s p : String) : Bool :=
  decide (p.data.length ≤ s.data.length) && decide (s.data.take p.data.length = p.data)

/-- Go `strings.Join(elems, sep)`. -/
def Join (elems : List String) (sep : String) : String :=
  match elems with
  | [] => ""
  | [a] => a
  | a :: rest => rest.foldl (fun b s => b ++ sep ++ s) a

/-- Go `exec.Command(name, arg...)`: `Args` is the name followed by the arguments, and
nothing else is set among the fields of `Cmd`. -/
def Command (name : String) (arg : List String) : Cmd :=
  { Args := [name] ++ arg, Env := [], Stdout := none, Stderr := none }

/-! ## Command builder (`main.go`, lines 130-184) -/

/-- The method `shouldSetProject`: `f.ProjectID != ""`. -/
def shouldSetProject (f : Firebase) : Bool :=
  decide (f.ProjectID ≠ "")

/-- The loop of `getEnvironment`: an entry is appended to `env` when it starts with
neither `DEBUG=` nor `FIREBASE_TOKEN=`. -/
def getEnvironmentLoop (env : List String) (oldEnv : List String) : List String :=
  oldEnv.foldl
    (fun env v =>
      if !HasPrefix v "DEBUG=" && !HasPrefix v "FIREBASE_TOKEN=" then env ++ [v] else env)
    env

/-- The function `getEnvironment` of `main.go`. -/
def getEnvironment (oldEnv : List String) (f : Firebase) : List String :=
  let env : List String := []
  let env := getEnvironmentLoop env oldEnv
  let env := env ++ ["FIREBASE_TOKEN=" ++ f.Token]
  let env := if f.Debug then env ++ ["DEBUG=" ++ "true"] else env
  env

/-- The method `buildUse`; `environ` is the value of `os.Environ()`. -/
def buildUse (environ : List String) (f : Firebase) : Cmd :=
  let args : List String := []
  let args := args ++ ["use"]
  let args := if f.ProjectID ≠ "" then args ++ [f.ProjectID] else args
  let cmd := Command "firebase" args
  { cmd with Env := getEnvironment environ f }

/-- The method `buildDeploy`; `environ` is the value of `os.Environ()`. -/
def buildDeploy (environ : List String) (f : Firebase) : Cmd :=
  let args : List String := []
  let args := args ++ ["deploy"]
  let args := if f.Targets ≠ "" then (args ++ ["--only"]) ++ [f.Targets] else args
  let args :=
    if f.Message ≠ "" then (args ++ ["--message"]) ++ ["\"" ++ f.Message ++ "\""] else args
  let cmd := Command "firebase" args
  { cmd with Env := getEnvironment environ f }

/-! ## Executor and orchestrator (`main.go`, lines 111-128 and 186-198)

The operating system is a parameter: a state `σ` with the three calls the program makes.
A Go `error` is an optional message, `none` being `nil`. -/

/-- The calls into the operating system: `os.Environ()`, `os.Chdir(path)` and the method
`Run` of `exec.Cmd`, each returning its error and the next state. -/
structure OS (σ : Type) where
  Environ : σ → List String
  Chdir : String → σ → Option String × σ
  Run : Cmd → σ → Option String × σ

/-- The state of the running plugin: the state of the operating system, what the plugin
itself has written to standard output (one element per call of a print function), and a
record of every subprocess it has run with the error that `Run` returned. -/
structure Proc (σ : Type) where
  world : σ
  stdout : List String
  spawned : List (Cmd × Option String)

/-- Go `fmt.Printf` and `fmt.Println`, given the formatted text. -/
def Proc.print {σ : Type} (p : Proc σ) (text : String) : Proc σ :=
  { p with stdout := p.stdout ++ [text] }

/-- The function `execute` of `main.go`. -/
def execute {σ : Type} (os : OS σ) (cmd : Cmd) (debug dryRun : Bool) (p : Proc σ) :
    Option String × Proc σ :=
  let cmd := { cmd with Stderr := some File.Stderr }
  let cmd := { cmd with Stdout := some File.Stdout }
  let p := if dryRun || debug then p.print ("$" ++ " " ++ Join cmd.Args " " ++ "\n") else p
  if dryRun then (none, p)
  else
    let r := os.Run cmd p.world
    (r.1, { p with world := r.2, spawned := p.spawned ++ [(cmd, r.1)] })

/-- The function `doDeployment` of `main.go`; the result of `os.Chdir` is discarded, as
in the source. -/
def doDeployment {σ : Type} (os : OS σ) (w : Workspace) (f : Firebase) (p : Proc σ) :
    Option String × Proc σ :=
  let p := p.print ("Changing to path: " ++ w.Path ++ "\n")
  let p := { p with world := (os.Chdir w.Path p.world).2 }
  let r :=
    if shouldSetProject f then
      let use := buildUse (os.Environ p.world) f
      execute os use f.Debug f.DryRun p
    else (none, p)
  match r with
  | (some err, p) => (some err, p)
  | (none, p) =>
    let deploy := buildDeploy (os.Environ p.world) f
    match execute os deploy f.Debug f.DryRun p with
    | (some err, p) => (some err, p)
    | (none, p) => (none, p)

/-- A small concrete operating system for evaluating the model: the environment, the
directories that exist, the current directory, the subcommands of `firebase` (the
argument after the program name) that exit with a non-zero status, and the number of
subprocesses run so far. -/
structure SimWorld where
  env : List String
  dirs : List String
  cwd : String
  failing : List String
  runs : Nat
  deriving DecidableEq, Repr

/-- The operating system over `SimWorld`. -/
def simOS : OS SimWorld where
  Environ := fun s => s.env
  Chdir := fun path s =>
    if path ∈ s.dirs then (none, { s with cwd := path })
    else (some ("chdir " ++ path ++ ": no such file or directory"), s)
  Run := fun cmd s =>
    if (cmd.Args.drop 1).head? ∈ s.failing.map some then
      (some "exit status 1", { s with runs := s.runs + 1 })
    else (none, { s with runs := s.runs + 1 })

/-- A sample state of the concrete operating system: `/drone/src` is the only directory. -/
def sampleWorld : SimWorld :=
  { env := ["PATH=/bin", "DEBUG=1", "FIREBASE_TOKEN=old"], dirs := ["/drone/src"], cwd := "/",
    failing := [], runs := 0 }

/-- The plugin at start: nothing written, nothing run. -/
def sampleProc (s : SimWorld) : Proc SimWorld :=
  { world := s, stdout := [], spawned := [] }

/-! ## Input parser (`main.go`, lines 74-109)

The package `encoding/json` is a parameter of the parser; `JSONValue` and `encodingJSON`
give one instance of it, over syntax trees. -/

/-- Go `unicode.IsSpace`: the Latin-1 spaces and the code points with the Unicode
property White_Space. -/
def IsSpace (c : Char) : Bool :=
  let n := c.toNat
  (9 ≤ n && n ≤ 13) || n = 32 || n = 0x85 || n = 0xA0 || n = 0x1680
    || (0x2000 ≤ n && n ≤ 0x200A) || n = 0x2028 || n = 0x2029 || n = 0x202F
    || n = 0x205F || n = 0x3000

/-- Go `strings.TrimLeftFunc(s, f)`: `s` without its leading characters satisfying `f`. -/
def TrimLeftFunc (s : String) (f : Char → Bool) : String :=
  ⟨s.data.dropWhile f⟩

/-- Go `strings.TrimRightFunc(s, f)`: `s` without its trailing characters satisfying
`f`. -/
def TrimRightFunc (s : String) (f : Char → Bool) : String :=
  ⟨s.data.rdropWhile f⟩

/-- Go `strings.TrimFunc(s, f)`. -/
def TrimFunc (s : String) (f : Char → Bool) : String :=
  TrimRightFunc (TrimLeftFunc s f) f

/-- Go `strings.TrimSpace(s)`: `TrimFunc(s, unicode.IsSpace)`. -/
def TrimSpace (s : String) : String :=
  TrimFunc s IsSpace

/-- Go `len(s)` of a string: its number of bytes. -/
def len (s : String) : Nat :=
  s.utf8ByteSize

/-- The errors `parseJSON` returns: the error of the decoder, a key that does not exist
in the JSON dictionary, a value that cannot be unmarshalled, and
`Firebase token can not be nil`. -/
inductive ParseError where
  | decode (err : String)
  | doesNotExist (key : String)
  | unableToUnmarshal (key : String) (err : String)
  | tokenNil
  deriving DecidableEq, Repr

/-- The calls into `encoding/json`, over the type `ι` of readers and the type `ρ` of
`json.RawMessage`: decoding the reader into a map from keys to raw messages, and
`json.Unmarshal` of a raw message into a `Workspace` and into a `Firebase`, which
returns its error and the record as it leaves it. -/
structure JSONLib (ι ρ : Type) where
  Decode : ι → Except String (String → Option ρ)
  UnmarshalWorkspace : ρ → Workspace → Option String × Workspace
  UnmarshalFirebase : ρ → Firebase → Option String × Firebase

/-- The function `unmarshalData` of `main.go`, given the `json.Unmarshal` of the type of
`output`. -/
def unmarshalData {ρ α : Type} (unmarshal : ρ → α → Option String × α) (key : String)
    (dict : String → Option ρ) (output : α) : Option ParseError × α :=
  match dict key with
  | none => (some (ParseError.doesNotExist key), output)
  | some data =>
    match unmarshal data output with
    | (some err, output) => (some (ParseError.unableToUnmarshal key err), output)
    | (none, output) => (none, output)

/-- The function `parseJSON` of `main.go`: the error, and the two records as the call
leaves them. -/
def parseJSON {ι ρ : Type} (lib : JSONLib ι ρ) (reader : ι) (workspace : Workspace)
    (firebase : Firebase) : Option ParseError × Workspace × Firebase :=
  match lib.Decode reader with
  | Except.error err => (some (ParseError.decode err), workspace, firebase)
  | Except.ok raw =>
    match unmarshalData lib.UnmarshalWorkspace "workspace" raw workspace with
    | (some err, workspace) => (some err, workspace, firebase)
    | (none, workspace) =>
      match unmarshalData lib.UnmarshalFirebase "vargs" raw firebase with
      | (some err, firebase) => (some err, workspace, firebase)
      | (none, firebase) =>
        let firebase := { firebase with Token := TrimSpace firebase.Token }
        let firebase := { firebase with Message := TrimSpace firebase.Message }
        if len firebase.Token = 0 then (some ParseError.tokenNil, workspace, firebase)
        else (none, workspace, firebase)

/-! ### An instance of `encoding/json` over syntax trees -/

/-- A JSON value as a syntax tree; a number keeps its literal. -/
inductive JSONValue where
  | null
  | bool (b : Bool)
  | number (literal : String)
  | string (s : String)
  | array (elems : List JSONValue)
  | object (members : List (String × JSONValue))

/-- Case folding of a key of an object against an ASCII field name: the capital letters,
and the Kelvin sign and the long s, which fold to `k` and `s`. -/
def foldRune (c : Char) : Char :=
  if c.toNat = 0x212A then 'k'
  else if c.toNat = 0x017F then 's'
  else if 'A' ≤ c ∧ c ≤ 'Z' then Char.ofNat (c.toNat + 32)
  else c

/-- A key selects the field named `name` when it is the name or folds to it. -/
def keyMatches (key name : String) : Bool :=
  decide (key = name) || decide (key.data.map foldRune = name.data.map foldRune)

/-- Storing a JSON value into a field of type `string`: a string is stored, `null`
leaves the field, anything else is a type error. -/
def storeString (v : JSONValue) (old : String) : Option String × String :=
  match v with
  | JSONValue.string s => (none, s)
  | JSONValue.null => (none, old)
  | _ => (some "json: cannot unmarshal into Go value of type string", old)

/-- Storing a JSON value into a field of type `bool`. -/
def storeBool (v : JSONValue) (old : Bool) : Option String × Bool :=
  match v with
  | JSONValue.bool b => (none, b)
  | JSONValue.null => (none, old)
  | _ => (some "json: cannot unmarshal into Go value of type bool", old)

/-- The first error is the one kept. -/
def saveError (saved new : Option String) : Option String :=
  match saved with
  | some e => some e
  | none => new

/-- One member of the object decoded into a `Firebase`: the field the key selects is
stored, an unknown key is skipped, and decoding goes on after a type error. -/
def firebaseMember (acc : Option String × Firebase) (m : String × JSONValue) :
    Option String × Firebase :=
  let f := acc.2
  if keyMatches m.1 "token" then
    let r := storeString m.2 f.Token
    (saveError acc.1 r.1, { f with Token := r.2 })
  else if keyMatches m.1 "project_id" then
    let r := storeString m.2 f.ProjectID
    (saveError acc.1 r.1, { f with ProjectID := r.2 })
  else if keyMatches m.1 "message" then
    let r := storeString m.2 f.Message
    (saveError acc.1 r.1, { f with Message := r.2 })
  else if keyMatches m.1 "targets" then
    let r := storeString m.2 f.Targets
    (saveError acc.1 r.1, { f with Targets := r.2 })
  else if keyMatches m.1 "dryrun" then
    let r := storeBool m.2 f.DryRun
    (saveError acc.1 r.1, { f with DryRun := r.2 })
  else if keyMatches m.1 "debug" then
    let r := storeBool m.2 f.Debug
    (saveError acc.1 r.1, { f with Debug := r.2 })
  else acc

/-- One member of the object decoded into a `Workspace`. -/
def workspaceMember (acc : Option String × Workspace) (m : String × JSONValue) :
    Option String × Workspace :=
  if keyMatches m.1 "path" then
    let r := storeString m.2 acc.2.Path
    (saveError acc.1 r.1, { acc.2 with Path := r.2 })
  else acc

/-- The map decoded from the members of the top-level object: a later member overrides
the earlier ones of the same key. -/
def rawMessages (members : List (String × JSONValue)) (key : String) : Option JSONValue :=
  (members.reverse.find? (fun m => m.1 = key)).map (fun m => m.2)

/-- The instance: the top-level value must be an object (its later members override the
earlier ones of the same key) or `null`; a record is decoded from an object, member by
member, or left as it is by `null`. -/
def encodingJSON : JSONLib JSONValue JSONValue where
  Decode := fun v =>
    match v with
    | JSONValue.object members => Except.ok (rawMessages members)
    | JSONValue.null => Except.ok (fun _ => none)
    | _ => Except.error "json: cannot unmarshal into Go value of type map[string]json.RawMessage"
  UnmarshalWorkspace := fun v w =>
    match v with
    | JSONValue.object members => members.foldl workspaceMember (none, w)
    | JSONValue.null => (none, w)
    | _ => (some "json: cannot unmarshal into Go value of type main.Workspace", w)
  UnmarshalFirebase := fun v f =>
    match v with
    | JSONValue.object members => members.foldl firebaseMember (none, f)
    | JSONValue.null => (none, f)
    | _ => (some "json: cannot unmarshal into Go value of type main.Firebase", f)

/-- The second input of the tests: token and message with whitespace. -/
def whitespaceInput : JSONValue :=
  JSONValue.object
    [("workspace", JSONValue.object []),
     ("vargs", JSONValue.object
        [("token", JSONValue.string "    foo    "), ("message", JSONValue.string "    bar    ")])]

/-- The third input of the tests: no token specified. -/
def noTokenInput : JSONValue :=
  JSONValue.object [("workspace", JSONValue.object []), ("vargs", JSONValue.object [])]

/-- The zero value of `Firebase`. -/
def zeroFirebase : Firebase :=
  { Token := "", ProjectID := "", Message := "", Targets := "", DryRun := false, Debug := false }

/-! ## Specification-side definitions -/

/-- What `execute` hands to `Run`: the command with both streams set. -/
def withStdio (cmd : Cmd) : Cmd :=
  { cmd with Stdout := some File.Stdout, Stderr := some File.Stderr }

/-- Specification side of the environment filter: an entry of the old environment
survives when it starts with neither `DEBUG=` nor `FIREBASE_TOKEN=`. -/
def survives (v : String) : Bool :=
  !HasPrefix v "DEBUG=" && !HasPrefix v "FIREBASE_TOKEN="

/-- Specification side of trimming: `t` is `s` with all leading and trailing whitespace
removed, that is, `s` is `t` between two runs of whitespace and `t` neither begins nor
ends with a whitespace character. -/
def IsTrimOf (t s : String) : Prop :=
  (∃ pre post : List Char, (∀ c ∈ pre, IsSpace c = true) ∧ (∀ c ∈ post, IsSpace c = true)
      ∧ s.data = pre ++ t.data ++ post)
  ∧ (∀ c, t.data.head? = some c → IsSpace c = false)
  ∧ (∀ c, t.data.getLast? = some c → IsSpace c = false)

/-! ## Lemmas on the environment -/

theorem getEnvironmentLoop_eq (oldEnv env : List String) :
    getEnvironmentLoop env oldEnv = env ++ oldEnv.filter survives := by
  induction oldEnv generalizing env with
  | nil => simp [getEnvironmentLoop]
  | cons v rest ih =>
    have step : getEnvironmentLoop env (v :: rest)
        = getEnvironmentLoop (if survives v then env ++ [v] else env) rest := by
      simp [getEnvironmentLoop, survives]
    rw [step, ih]
    by_cases h : survives v = true
    · simp [h, List.filter_cons]
    · simp [h, List.filter_cons]

theorem HasPrefix_append_self (p t : String) : HasPrefix (p ++ t) p = true := by
  simp [HasPrefix]

theorem token_entry_not_debug (t : String) :
    HasPrefix ("FIREBASE_TOKEN=" ++ t) "DEBUG=" = false := by
  simp [HasPrefix]

theorem getEnvironment_eq_filter (oldEnv : List String) (f : Firebase) :
    getEnvironment oldEnv f
      = oldEnv.filter survives ++ ["FIREBASE_TOKEN=" ++ f.Token]
          ++ (if f.Debug then ["DEBUG=true"] else []) := by
  unfold getEnvironment
  simp only [getEnvironmentLoop_eq, List.nil_append]
  cases f.Debug <;> simp

theorem filter_token_survivors (l : List String) :
    (l.filter survives).filter (fun v => HasPrefix v "FIREBASE_TOKEN=") = [] := by
  rw [List.filter_eq_nil_iff]
  intro v hv
  have h := (List.mem_filter.mp hv).2
  simp only [survives, Bool.and_eq_true, Bool.not_eq_true'] at h
  simp [h.2]

theorem filter_debug_survivors (l : List String) :
    (l.filter survives).filter (fun v => HasPrefix v "DEBUG=") = [] := by
  rw [List.filter_eq_nil_iff]
  intro v hv
  have h := (List.mem_filter.mp hv).2
  simp only [survives, Bool.and_eq_true, Bool.not_eq_true'] at h
  simp [h.1]

/-! ## Lemmas on the builders and the executor -/

theorem buildUse_Args_eq (environ : List String) (f : Firebase) :
    (buildUse environ f).Args
      = if f.ProjectID ≠ "" then ["firebase", "use", f.ProjectID] else ["firebase", "use"] := by
  unfold buildUse Command
  by_cases hp : f.ProjectID = "" <;> simp [hp]

theorem buildDeploy_Args_eq (environ : List String) (f : Firebase) :
    (buildDeploy environ f).Args
      = ["firebase", "deploy"]
          ++ (if f.Targets ≠ "" then ["--only", f.Targets] else [])
          ++ (if f.Message ≠ "" then ["--message", "\"" ++ f.Message ++ "\""] else []) := by
  unfold buildDeploy Command
  by_cases ht : f.Targets = "" <;> by_cases hm : f.Message = "" <;> simp [ht, hm]

theorem execute_dryRun {σ : Type} (os : OS σ) (cmd : Cmd) (debug : Bool) (p : Proc σ) :
    execute os cmd debug true p
      = (none, { p with stdout := p.stdout ++ ["$ " ++ Join cmd.Args " " ++ "\n"] }) := by
  have h : "$" ++ " " = "$ " := by decide
  simp [execute, Proc.print, h]

theorem execute_run {σ : Type} (os : OS σ) (cmd : Cmd) (debug : Bool) (p : Proc σ) :
    execute os cmd debug false p
      = ((os.Run (withStdio cmd) p.world).1,
          { world := (os.Run (withStdio cmd) p.world).2,
            stdout := if debug then p.stdout ++ ["$ " ++ Join cmd.Args " " ++ "\n"] else p.stdout,
            spawned := p.spawned ++ [(withStdio cmd, (os.Run (withStdio cmd) p.world).1)] }) := by
  have h : "$" ++ " " = "$ " := by decide
  cases debug <;> simp [execute, Proc.print, h, withStdio]

/-! ## Claims on the command builder -/

/-- C1: the environment built by `getEnvironment` has exactly one entry that starts with
`FIREBASE_TOKEN=`, namely `FIREBASE_TOKEN=` followed by the token, and its entries that
start with `DEBUG=` are the single `DEBUG=true` when the debug flag is set and none
otherwise, whatever the old environment held. -/
theorem getEnvironment_token_and_debug_entries (oldEnv : List String) (f : Firebase) :
    (getEnvironment oldEnv f).filter (fun v => HasPrefix v "FIREBASE_TOKEN=")
        = ["FIREBASE_TOKEN=" ++ f.Token]
    ∧ (getEnvironment oldEnv f).filter (fun v => HasPrefix v "DEBUG=")
        = (if f.Debug then ["DEBUG=true"] else []) := by
  rw [getEnvironment_eq_filter]
  have ht := HasPrefix_append_self "FIREBASE_TOKEN=" f.Token
  have hd := token_entry_not_debug f.Token
  have h1 : HasPrefix "DEBUG=true" "FIREBASE_TOKEN=" = false := by decide
  have h2 : HasPrefix "DEBUG=true" "DEBUG=" = true := by decide
  constructor
  · rw [List.filter_append, List.filter_append, filter_token_survivors]
    cases f.Debug <;> simp [List.filter_cons, ht, h1]
  · rw [List.filter_append, List.filter_append, filter_debug_survivors]
    cases f.Debug <;> simp [List.filter_cons, hd, h2]

/-- C2: the argument list of the command built by `buildDeploy` is `firebase deploy`,
then `--only` and the targets string as one argument exactly when the targets are
non-empty, then `--message` and the message in double quotes exactly when the message is
non-empty. -/
theorem buildDeploy_argument_list (environ : List String) (f : Firebase) :
    (buildDeploy environ f).Args
      = ["firebase", "deploy"]
          ++ (if f.Targets ≠ "" then ["--only", f.Targets] else [])
          ++ (if f.Message ≠ "" then ["--message", "\"" ++ f.Message ++ "\""] else []) := by
  exact buildDeploy_Args_eq environ f

/-- C3: `shouldSetProject` holds exactly when the project identifier is non-empty, the
argument list of the command built by `buildUse` is `firebase use` followed by the
project identifier when it holds and the bare `firebase use` otherwise, and no other
field of the record, nor the environment, changes that argument list. -/
theorem buildUse_argument_list (environ : List String) (f : Firebase) :
    (shouldSetProject f = true ↔ f.ProjectID ≠ "")
    ∧ (buildUse environ f).Args
        = (if shouldSetProject f = true then ["firebase", "use", f.ProjectID]
           else ["firebase", "use"])
    ∧ ∀ (environ2 : List String) (token message targets : String) (dryRun debug : Bool),
        (buildUse environ2 ⟨token, f.ProjectID, message, targets, dryRun, debug⟩).Args
          = (buildUse environ f).Args := by
  refine ⟨by simp [shouldSetProject], ?_, ?_⟩
  · unfold buildUse Command shouldSetProject
    by_cases hp : f.ProjectID = "" <;> simp [hp]
  · intro environ2 token message targets dryRun debug
    simp [buildUse, Command]

/-- C7: `getEnvironment` returns the entries of the old environment that start with
neither `DEBUG=` nor `FIREBASE_TOKEN=`, in their order, then the token entry, then
`DEBUG=true` when the debug flag is set; its length is the number of survivors plus one,
plus one more with the debug flag; entries such as `PATH=...`, `DEBUGGER=1`, `MY_DEBUG=1`
and a bare `DEBUG` survive. -/
theorem getEnvironment_survivors_token_debug (oldEnv : List String) (f : Firebase) :
    getEnvironment oldEnv f
        = oldEnv.filter (fun v => !HasPrefix v "DEBUG=" && !HasPrefix v "FIREBASE_TOKEN=")
            ++ ["FIREBASE_TOKEN=" ++ f.Token]
            ++ (if f.Debug then ["DEBUG=true"] else [])
    ∧ (getEnvironment oldEnv f).length
        = (oldEnv.filter
              (fun v => !HasPrefix v "DEBUG=" && !HasPrefix v "FIREBASE_TOKEN=")).length
            + 1 + (if f.Debug then 1 else 0)
    ∧ (∀ t : String, survives ("PATH=" ++ t) = true)
    ∧ survives "DEBUGGER=1" = true ∧ survives "MY_DEBUG=1" = true
    ∧ survives "DEBUG" = true := by
  have hs : (fun v => !HasPrefix v "DEBUG=" && !HasPrefix v "FIREBASE_TOKEN=") = survives := by
    funext v
    rfl
  rw [hs, getEnvironment_eq_filter]
  refine ⟨rfl, ?_, ?_, by decide, by decide, by decide⟩
  · cases f.Debug <;> simp
  · intro t
    simp [survives, HasPrefix]


/-! ## Claims on the executor and the orchestrator -/

/-- C9: with the dry-run flag set, whatever the debug flag, `doDeployment` returns no
error and runs no subprocess: the record of subprocesses is unchanged and the operating
system is left in the state the change of directory produced, no `Run` having acted on
it; what it writes is the line announcing the directory, then the trace line of the use
command when the project identifier is non-empty, then the trace line of the deploy
command, a trace line being `$ ` followed by the arguments joined by single spaces. -/
theorem doDeployment_dryRun {σ : Type} (os : OS σ) (w : Workspace) (f : Firebase) (p : Proc σ)
    (h : f.DryRun = true) :
    (doDeployment os w f p).1 = none
    ∧ (doDeployment os w f p).2.spawned = p.spawned
    ∧ (doDeployment os w f p).2.world = (os.Chdir w.Path p.world).2
    ∧ (doDeployment os w f p).2.stdout
        = p.stdout ++ ["Changing to path: " ++ w.Path ++ "\n"]
          ++ (if f.ProjectID ≠ "" then ["$ " ++ Join ["firebase", "use", f.ProjectID] " " ++ "\n"]
              else [])
          ++ ["$ " ++ Join (["firebase", "deploy"]
                ++ (if f.Targets ≠ "" then ["--only", f.Targets] else [])
                ++ (if f.Message ≠ "" then ["--message", "\"" ++ f.Message ++ "\""] else []))
              " " ++ "\n"] := by
  by_cases hp : f.ProjectID = ""
  · simp [doDeployment, shouldSetProject, h, hp, execute_dryRun, Proc.print, buildDeploy_Args_eq]
  · simp [doDeployment, shouldSetProject, h, hp, execute_dryRun, Proc.print, buildDeploy_Args_eq,
      buildUse_Args_eq]

/-- Witness of C9 on the end-to-end scenario of the tests: two trace lines, nothing run,
the count of subprocesses of the operating system still zero. -/
theorem doDeployment_dryRun_witness :
    (⟨"1/deadbeefforrealz-4", "staging", "", "hosting", true, true⟩ : Firebase).DryRun = true
    ∧ (doDeployment simOS ⟨"/drone/src"⟩ ⟨"1/deadbeefforrealz-4", "staging", "", "hosting", true, true⟩
          (sampleProc sampleWorld)).1 = none
    ∧ (doDeployment simOS ⟨"/drone/src"⟩ ⟨"1/deadbeefforrealz-4", "staging", "", "hosting", true, true⟩
          (sampleProc sampleWorld)).2.spawned = []
    ∧ (doDeployment simOS ⟨"/drone/src"⟩ ⟨"1/deadbeefforrealz-4", "staging", "", "hosting", true, true⟩
          (sampleProc sampleWorld)).2.world.runs = 0
    ∧ (doDeployment simOS ⟨"/drone/src"⟩ ⟨"1/deadbeefforrealz-4", "staging", "", "hosting", true, true⟩
          (sampleProc sampleWorld)).2.stdout
        = ["Changing to path: /drone/src\n", "$ firebase use staging\n",
            "$ firebase deploy --only hosting\n"] := by
  have h := doDeployment_dryRun simOS ⟨"/drone/src"⟩
    ⟨"1/deadbeefforrealz-4", "staging", "", "hosting", true, true⟩ (sampleProc sampleWorld) rfl
  refine ⟨rfl, h.1, h.2.1, ?_, ?_⟩
  · rw [h.2.2.1]
    decide
  · rw [h.2.2.2]
    decide


/-- C10: with the dry-run flag unset, `doDeployment` runs the use command exactly when
the project identifier is non-empty and the deploy command after it: without a project
identifier the deploy command alone is run and its error is the result; when the use
command fails its error is the result and nothing else is run; when it succeeds the
deploy command is run once and its error, or none, is the result.  In each case the
operating system is left in the state that exactly these runs produce from the state
after the change of directory, and the record of subprocesses lists exactly them. -/
theorem doDeployment_run {σ : Type} (os : OS σ) (w : Workspace) (f : Firebase) (p : Proc σ)
    (h : f.DryRun = false) :
    let s1 := (os.Chdir w.Path p.world).2
    let useCmd := withStdio (buildUse (os.Environ s1) f)
    let deployCmd := fun s => withStdio (buildDeploy (os.Environ s) f)
    (f.ProjectID = "" →
        (doDeployment os w f p).1 = (os.Run (deployCmd s1) s1).1
        ∧ (doDeployment os w f p).2.spawned
            = p.spawned ++ [(deployCmd s1, (os.Run (deployCmd s1) s1).1)]
        ∧ (doDeployment os w f p).2.world = (os.Run (deployCmd s1) s1).2)
    ∧ (f.ProjectID ≠ "" → ∀ e, (os.Run useCmd s1).1 = some e →
        (doDeployment os w f p).1 = some e
        ∧ (doDeployment os w f p).2.spawned = p.spawned ++ [(useCmd, some e)]
        ∧ (doDeployment os w f p).2.world = (os.Run useCmd s1).2)
    ∧ (f.ProjectID ≠ "" → (os.Run useCmd s1).1 = none →
        (doDeployment os w f p).1 = (os.Run (deployCmd (os.Run useCmd s1).2) (os.Run useCmd s1).2).1
        ∧ (doDeployment os w f p).2.spawned
            = p.spawned ++ [(useCmd, none),
                (deployCmd (os.Run useCmd s1).2,
                  (os.Run (deployCmd (os.Run useCmd s1).2) (os.Run useCmd s1).2).1)]
        ∧ (doDeployment os w f p).2.world
            = (os.Run (deployCmd (os.Run useCmd s1).2) (os.Run useCmd s1).2).2)
    ∧ (f.ProjectID ≠ "" → useCmd.Args = ["firebase", "use", f.ProjectID])
    ∧ (∀ s, (deployCmd s).Args
        = ["firebase", "deploy"]
          ++ (if f.Targets ≠ "" then ["--only", f.Targets] else [])
          ++ (if f.Message ≠ "" then ["--message", "\"" ++ f.Message ++ "\""] else [])) := by
  intro s1 useCmd deployCmd
  refine ⟨?_, ?_, ?_, ?_, ?_⟩
  · intro hp
    simp only [doDeployment, shouldSetProject, h, hp, execute_run, Proc.print]
    simp only [ne_eq, not_true_eq_false, decide_False, Bool.false_eq_true, if_false]
    cases hr : (os.Run (deployCmd s1) s1).1 <;> simp [hr, deployCmd, s1]
  · intro hp e he
    simp only [doDeployment, shouldSetProject, h, hp, execute_run, Proc.print]
    simp [useCmd, s1] at he
    simp [he, hp, useCmd, s1]
  · intro hp he
    simp only [doDeployment, shouldSetProject, h, hp, execute_run, Proc.print]
    simp [useCmd, s1] at he
    cases hr : (os.Run (deployCmd (os.Run useCmd s1).2) (os.Run useCmd s1).2).1 <;>
      simp [useCmd, s1, deployCmd] at hr <;> simp [he, hr, hp, useCmd, s1, deployCmd]
  · intro hp
    simp [useCmd, withStdio, buildUse_Args_eq, hp]
  · intro s
    simp [deployCmd, withStdio, buildDeploy_Args_eq]

/-- Witness of C10: the use command exits with a non-zero status, its error is returned
and it is the only command run, the operating system having counted one subprocess. -/
theorem doDeployment_run_witness :
    (⟨"tok", "staging", "", "hosting", false, false⟩ : Firebase).DryRun = false
    ∧ (doDeployment simOS ⟨"/drone/src"⟩ ⟨"tok", "staging", "", "hosting", false, false⟩
          (sampleProc ⟨[], ["/drone/src"], "/", ["use"], 0⟩)).1 = some "exit status 1"
    ∧ (doDeployment simOS ⟨"/drone/src"⟩ ⟨"tok", "staging", "", "hosting", false, false⟩
          (sampleProc ⟨[], ["/drone/src"], "/", ["use"], 0⟩)).2.spawned
        = [(⟨["firebase", "use", "staging"], ["FIREBASE_TOKEN=tok"],
              some File.Stdout, some File.Stderr⟩, some "exit status 1")]
    ∧ (doDeployment simOS ⟨"/drone/src"⟩ ⟨"tok", "staging", "", "hosting", false, false⟩
          (sampleProc ⟨[], ["/drone/src"], "/", ["use"], 0⟩)).2.world.runs = 1 := by
  have h := (doDeployment_run simOS ⟨"/drone/src"⟩ ⟨"tok", "staging", "", "hosting", false, false⟩
    (sampleProc ⟨[], ["/drone/src"], "/", ["use"], 0⟩) rfl).2.1 (by decide) "exit status 1"
      (by decide)
  refine ⟨rfl, h.1, ?_, ?_⟩
  · rw [h.2.1]
    decide
  · rw [h.2.2]
    decide

/-- C6, as the code behaves: the error of `os.Chdir` never reaches the result of
`doDeployment`, which is the same as with a `Chdir` that reports no error; on a
workspace path that does not exist both commands are still built and run and the
result is success. -/
theorem doDeployment_discards_chdir_error :
    (∀ (σ : Type) (os : OS σ) (w : Workspace) (f : Firebase) (p : Proc σ),
        doDeployment os w f p
          = doDeployment { os with Chdir := fun path s => (none, (os.Chdir path s).2) } w f p)
    ∧ (simOS.Chdir "/nonexistent" sampleWorld).1
        = some "chdir /nonexistent: no such file or directory"
    ∧ (doDeployment simOS ⟨"/nonexistent"⟩ ⟨"tok", "staging", "", "hosting", false, false⟩
          (sampleProc sampleWorld)).1 = none
    ∧ (doDeployment simOS ⟨"/nonexistent"⟩ ⟨"tok", "staging", "", "hosting", false, false⟩
          (sampleProc sampleWorld)).2.spawned.map (fun c => c.1.Args)
        = [["firebase", "use", "staging"], ["firebase", "deploy", "--only", "hosting"]] := by
  refine ⟨?_, by decide, by decide, by decide⟩
  intro σ os w f p
  rfl


/-- C8: two records that differ only in the token give the same argument list for the
use command and for the deploy command, `execute` writes the same for both, and their
environments, which are what the commands carry, are the same entries around the one
`FIREBASE_TOKEN=` entry, no other entry starting with `FIREBASE_TOKEN=`. -/
theorem token_only_in_environment (environ : List String) (f g : Firebase)
    (hP : f.ProjectID = g.ProjectID) (hM : f.Message = g.Message) (hT : f.Targets = g.Targets)
    (hR : f.DryRun = g.DryRun) (hD : f.Debug = g.Debug) :
    (buildUse environ f).Args = (buildUse environ g).Args
    ∧ (buildDeploy environ f).Args = (buildDeploy environ g).Args
    ∧ (∀ (σ : Type) (os : OS σ) (p : Proc σ),
        (execute os (buildUse environ f) f.Debug f.DryRun p).2.stdout
          = (execute os (buildUse environ g) g.Debug g.DryRun p).2.stdout
        ∧ (execute os (buildDeploy environ f) f.Debug f.DryRun p).2.stdout
          = (execute os (buildDeploy environ g) g.Debug g.DryRun p).2.stdout)
    ∧ (buildUse environ f).Env = getEnvironment environ f
    ∧ (buildDeploy environ f).Env = getEnvironment environ f
    ∧ ∃ pre post : List String,
        (∀ v ∈ pre ++ post, HasPrefix v "FIREBASE_TOKEN=" = false)
        ∧ getEnvironment environ f = pre ++ ["FIREBASE_TOKEN=" ++ f.Token] ++ post
        ∧ getEnvironment environ g = pre ++ ["FIREBASE_TOKEN=" ++ g.Token] ++ post := by
  have hu : (buildUse environ f).Args = (buildUse environ g).Args := by
    rw [buildUse_Args_eq, buildUse_Args_eq, hP]
  have hd : (buildDeploy environ f).Args = (buildDeploy environ g).Args := by
    rw [buildDeploy_Args_eq, buildDeploy_Args_eq, hM, hT]
  refine ⟨hu, hd, ?_, rfl, rfl, ?_⟩
  · intro σ os p
    rw [← hR, ← hD]
    cases f.DryRun
    · simp only [execute_run, hu, hd, and_self]
    · simp only [execute_dryRun, hu, hd, and_self]
  · refine ⟨environ.filter survives, if f.Debug then ["DEBUG=true"] else [], ?_, ?_, ?_⟩
    · intro v hv
      rcases List.mem_append.mp hv with hv | hv
      · have h := (List.mem_filter.mp hv).2
        simp only [survives, Bool.and_eq_true, Bool.not_eq_true'] at h
        exact h.2
      · cases hdb : f.Debug
        · simp [hdb] at hv
        · simp [hdb] at hv
          subst hv
          decide
    · exact getEnvironment_eq_filter environ f
    · rw [hD]
      exact getEnvironment_eq_filter environ g

/-- Witness of C8: two records with tokens `a` and `b` and everything else equal. -/
theorem token_only_in_environment_witness :
    (buildDeploy ["PATH=/bin"] ⟨"a", "p", "m", "hosting", false, true⟩).Args
      = (buildDeploy ["PATH=/bin"] ⟨"b", "p", "m", "hosting", false, true⟩).Args :=
  (token_only_in_environment ["PATH=/bin"] ⟨"a", "p", "m", "hosting", false, true⟩
    ⟨"b", "p", "m", "hosting", false, true⟩ rfl rfl rfl rfl rfl).2.1

/-! ## Lemmas on trimming -/

theorem len_eq_zero_iff (s : String) : len s = 0 ↔ s = "" := by
  cases s with
  | mk cs =>
    cases cs with
    | nil => simp [len]; rfl
    | cons c cs =>
      have hc := Char.utf8Size_pos c
      have hne : (String.mk (c :: cs)) ≠ "" := by
        intro h
        have := congrArg String.data h
        simp at this
      simp [len, String.utf8ByteSize, String.utf8ByteSize.go, hne]
      omega

theorem TrimSpace_data (s : String) :
    (TrimSpace s).data = (s.data.dropWhile IsSpace).rdropWhile IsSpace := rfl

theorem dropWhile_all_iff (p : Char → Bool) (l : List Char) :
    (∀ x ∈ l.dropWhile p, p x = true) ↔ ∀ x ∈ l, p x = true := by
  constructor
  · intro h
    have hnil : l.dropWhile p = [] := by
      cases hd : l.dropWhile p with
      | nil => rfl
      | cons a t =>
        have h1 := List.head?_dropWhile_not p l
        rw [hd] at h1
        have h2 := h a (by rw [hd]; simp)
        simp [h2] at h1
    intro x hx
    exact (List.dropWhile_eq_nil_iff.mp hnil) x hx
  · intro h x hx
    exact h x ((List.dropWhile_sublist p).subset hx)

theorem TrimSpace_eq_empty_iff (s : String) :
    TrimSpace s = "" ↔ ∀ c ∈ s.data, IsSpace c = true := by
  have h1 : TrimSpace s = "" ↔ (TrimSpace s).data = [] := by
    constructor
    · intro h
      rw [h]
    · intro h
      exact String.ext h
  rw [h1, TrimSpace_data, List.rdropWhile_eq_nil_iff]
  exact dropWhile_all_iff IsSpace s.data

theorem rdropWhile_append_rtakeWhile_self (p : Char → Bool) (l : List Char) :
    l.rdropWhile p ++ l.rtakeWhile p = l := by
  rw [List.rdropWhile, List.rtakeWhile, ← List.reverse_append, List.takeWhile_append_dropWhile,
    List.reverse_reverse]

theorem TrimSpace_isTrimOf (s : String) : IsTrimOf (TrimSpace s) s := by
  refine ⟨⟨s.data.takeWhile IsSpace, (s.data.dropWhile IsSpace).rtakeWhile IsSpace, ?_, ?_, ?_⟩,
    ?_, ?_⟩
  · intro c hc
    exact List.mem_takeWhile_imp hc
  · intro c hc
    exact List.mem_rtakeWhile_imp hc
  · rw [TrimSpace_data, List.append_assoc, rdropWhile_append_rtakeWhile_self,
      List.takeWhile_append_dropWhile]
  · intro c hc
    rw [TrimSpace_data] at hc
    have hpre : (s.data.dropWhile IsSpace).rdropWhile IsSpace <+: s.data.dropWhile IsSpace :=
      List.rdropWhile_prefix IsSpace _
    obtain ⟨t, ht⟩ := hpre
    cases hr : (s.data.dropWhile IsSpace).rdropWhile IsSpace with
    | nil => rw [hr] at hc; simp at hc
    | cons a r =>
      rw [hr] at hc ht
      simp at hc
      subst hc
      have h1 := List.head?_dropWhile_not IsSpace s.data
      rw [← ht] at h1
      simpa using h1
  · intro c hc
    rw [TrimSpace_data] at hc
    by_cases hne : (s.data.dropWhile IsSpace).rdropWhile IsSpace = []
    · rw [hne] at hc; simp at hc
    · have h1 := List.rdropWhile_last_not IsSpace _ hne
      rw [List.getLast?_eq_getLast _ hne] at hc
      simp at hc
      rw [← hc]
      simpa using h1

/-! ## Lemmas on the parser -/

theorem parseJSON_decoded {ι ρ : Type} (lib : JSONLib ι ρ) (reader : ι) (w0 w1 : Workspace)
    (f0 f1 : Firebase) (raw : String → Option ρ) (rw rv : ρ)
    (hdec : lib.Decode reader = Except.ok raw)
    (hw : raw "workspace" = some rw) (huw : lib.UnmarshalWorkspace rw w0 = (none, w1))
    (hv : raw "vargs" = some rv) (huf : lib.UnmarshalFirebase rv f0 = (none, f1)) :
    parseJSON lib reader w0 f0
      = if TrimSpace f1.Token = "" then
          (some ParseError.tokenNil, w1,
            { f1 with Token := TrimSpace f1.Token, Message := TrimSpace f1.Message })
        else
          (none, w1, { f1 with Token := TrimSpace f1.Token, Message := TrimSpace f1.Message }) := by
  simp only [parseJSON, hdec, unmarshalData, hw, huw, hv, huf, len_eq_zero_iff]

theorem parseJSON_error_of_empty_token {ι ρ : Type} (lib : JSONLib ι ρ) (reader : ι)
    (w0 : Workspace) (f0 : Firebase) (raw : String → Option ρ) (rw rv : ρ)
    (hdec : lib.Decode reader = Except.ok raw)
    (hw : raw "workspace" = some rw) (hv : raw "vargs" = some rv)
    (htok : TrimSpace (lib.UnmarshalFirebase rv f0).2.Token = "") :
    (parseJSON lib reader w0 f0).1 ≠ none := by
  simp only [parseJSON, hdec, unmarshalData, hw, hv]
  rcases h1 : lib.UnmarshalWorkspace rw w0 with ⟨e1, w1⟩
  rcases h2 : lib.UnmarshalFirebase rv f0 with ⟨e2, f2⟩
  rw [h2] at htok
  have htok2 : TrimSpace f2.Token = "" := htok
  cases e1 <;> cases e2 <;> simp [len_eq_zero_iff, htok2]

theorem firebaseMember_token (acc : Option String × Firebase) (m : String × JSONValue)
    (h : keyMatches m.1 "token" = false) : (firebaseMember acc m).2.Token = acc.2.Token := by
  simp only [firebaseMember, h, Bool.false_eq_true, if_false]
  split_ifs <;> rfl

theorem foldl_firebaseMember_token (members : List (String × JSONValue))
    (acc : Option String × Firebase)
    (h : ∀ m ∈ members, keyMatches m.1 "token" = false) :
    (members.foldl firebaseMember acc).2.Token = acc.2.Token := by
  induction members generalizing acc with
  | nil => rfl
  | cons m rest ih =>
    rw [List.foldl_cons, ih _ (fun x hx => h x (List.mem_cons_of_mem _ hx)),
      firebaseMember_token _ _ (h m (List.mem_cons_self _ _))]

/-! ## Claims on the input parser -/

/-- C4: when the reader decodes to a dictionary whose `workspace` and `vargs` values
unmarshal without error and the decoded token is not made of whitespace only,
`parseJSON` returns no error, the token and the message are the decoded ones with all
leading and trailing whitespace removed, the token is non-empty, and the project
identifier, the targets, both flags and the workspace are the decoded ones. -/
theorem parseJSON_trims_token_and_message {ι ρ : Type} (lib : JSONLib ι ρ) (reader : ι)
    (w0 w1 : Workspace) (f0 f1 : Firebase) (raw : String → Option ρ) (rw rv : ρ)
    (hdec : lib.Decode reader = Except.ok raw)
    (hw : raw "workspace" = some rw) (huw : lib.UnmarshalWorkspace rw w0 = (none, w1))
    (hv : raw "vargs" = some rv) (huf : lib.UnmarshalFirebase rv f0 = (none, f1))
    (htok : ∃ c ∈ f1.Token.data, IsSpace c = false) :
    (parseJSON lib reader w0 f0).1 = none
    ∧ IsTrimOf (parseJSON lib reader w0 f0).2.2.Token f1.Token
    ∧ IsTrimOf (parseJSON lib reader w0 f0).2.2.Message f1.Message
    ∧ (parseJSON lib reader w0 f0).2.2.Token ≠ ""
    ∧ (parseJSON lib reader w0 f0).2.2.ProjectID = f1.ProjectID
    ∧ (parseJSON lib reader w0 f0).2.2.Targets = f1.Targets
    ∧ (parseJSON lib reader w0 f0).2.2.DryRun = f1.DryRun
    ∧ (parseJSON lib reader w0 f0).2.2.Debug = f1.Debug
    ∧ (parseJSON lib reader w0 f0).2.1 = w1
    ∧ (parseJSON lib reader w0 f0).2.1.Path = w1.Path := by
  have hne : TrimSpace f1.Token ≠ "" := by
    intro h
    obtain ⟨c, hc, hs⟩ := htok
    have := (TrimSpace_eq_empty_iff f1.Token).mp h c hc
    simp [hs] at this
  rw [parseJSON_decoded lib reader w0 w1 f0 f1 raw rw rv hdec hw huw hv huf, if_neg hne]
  exact ⟨rfl, TrimSpace_isTrimOf _, TrimSpace_isTrimOf _, hne, rfl, rfl, rfl, rfl, rfl, rfl⟩

/-- Witness of C4: the input of the tests whose token and message carry whitespace. -/
theorem parseJSON_trims_token_and_message_witness :
    (parseJSON encodingJSON whitespaceInput ⟨""⟩ zeroFirebase).1 = none
    ∧ (parseJSON encodingJSON whitespaceInput ⟨""⟩ zeroFirebase).2.2.Token = "foo"
    ∧ (parseJSON encodingJSON whitespaceInput ⟨""⟩ zeroFirebase).2.2.Message = "bar" :=
  ⟨(parseJSON_trims_token_and_message encodingJSON whitespaceInput ⟨""⟩ ⟨""⟩ zeroFirebase
      ⟨"    foo    ", "", "    bar    ", "", false, false⟩
      (rawMessages [("workspace", JSONValue.object []),
          ("vargs", JSONValue.object [("token", JSONValue.string "    foo    "),
            ("message", JSONValue.string "    bar    ")])])
      (JSONValue.object [])
      (JSONValue.object [("token", JSONValue.string "    foo    "),
        ("message", JSONValue.string "    bar    ")])
      rfl rfl rfl rfl rfl ⟨'f', by decide, by decide⟩).1,
    by decide, by decide⟩

/-- C5: when the reader decodes to a dictionary whose `workspace` and `vargs` values
unmarshal without error, `parseJSON` returns an error exactly when the decoded token is
empty after trimming, that is, when it is made of whitespace only, the empty token
included, whatever the other fields are; and with `encodingJSON` a `vargs` object with
no token key, decoded into a record with an empty token, always gives an error. -/
theorem parseJSON_error_iff_token_empty {ι ρ : Type} (lib : JSONLib ι ρ) (reader : ι)
    (w0 w1 : Workspace) (f0 f1 : Firebase) (raw : String → Option ρ) (rw rv : ρ)
    (hdec : lib.Decode reader = Except.ok raw)
    (hw : raw "workspace" = some rw) (huw : lib.UnmarshalWorkspace rw w0 = (none, w1))
    (hv : raw "vargs" = some rv) (huf : lib.UnmarshalFirebase rv f0 = (none, f1)) :
    ((parseJSON lib reader w0 f0).1 ≠ none ↔ TrimSpace f1.Token = "")
    ∧ ((parseJSON lib reader w0 f0).1 ≠ none ↔ ∀ c ∈ f1.Token.data, IsSpace c = true)
    ∧ (f1.Token = "" → (parseJSON lib reader w0 f0).1 ≠ none)
    ∧ (∀ (wv : JSONValue) (vm : List (String × JSONValue)) (w : Workspace) (f : Firebase),
        f.Token = "" → (∀ m ∈ vm, keyMatches m.1 "token" = false) →
        (parseJSON encodingJSON
            (JSONValue.object [("workspace", wv), ("vargs", JSONValue.object vm)]) w f).1
          ≠ none) := by
  have hiff : (parseJSON lib reader w0 f0).1 ≠ none ↔ TrimSpace f1.Token = "" := by
    rw [parseJSON_decoded lib reader w0 w1 f0 f1 raw rw rv hdec hw huw hv huf]
    by_cases h : TrimSpace f1.Token = "" <;> simp [h]
  refine ⟨hiff, ?_, ?_, ?_⟩
  · rw [hiff, TrimSpace_eq_empty_iff]
  · intro h
    rw [hiff, TrimSpace_eq_empty_iff, h]
    intro c hc
    simp at hc
  · intro wv vm w f hf hvm
    have htok := foldl_firebaseMember_token vm (none, f) hvm
    have hraw1 : rawMessages [("workspace", wv), ("vargs", JSONValue.object vm)] "workspace"
        = some wv := by
      simp [rawMessages]
    have hraw2 : rawMessages [("workspace", wv), ("vargs", JSONValue.object vm)] "vargs"
        = some (JSONValue.object vm) := by
      simp [rawMessages]
    refine parseJSON_error_of_empty_token encodingJSON _ w f _ wv (JSONValue.object vm) rfl
      hraw1 hraw2 ?_
    have hempty : TrimSpace "" = "" := by decide
    show TrimSpace (vm.foldl firebaseMember (none, f)).2.Token = ""
    rw [htok, hf, hempty]

/-- Witness of C5: the input of the tests with no token specified is rejected. -/
theorem parseJSON_error_iff_token_empty_witness :
    (parseJSON encodingJSON noTokenInput ⟨""⟩ zeroFirebase).1 ≠ none :=
  (parseJSON_error_iff_token_empty encodingJSON noTokenInput ⟨""⟩ ⟨""⟩ zeroFirebase zeroFirebase
    (rawMessages [("workspace", JSONValue.object []), ("vargs", JSONValue.object [])])
    (JSONValue.object []) (JSONValue.object []) rfl rfl rfl rfl rfl).2.2.1 rfl

end DroneFirebase
